import Mathlib

/-!
Verification development for the `reset` command of photoprism
(src/internal/commands/reset.go).

The command is shallowly embedded: strings are `List Char`, filesystem
paths are lists of components, the platform services used by the command
(`filepath.Glob`, `os.Remove`, `os.RemoveAll`, the interactive confirmation
prompt, and the database collaborators) are modelled as explicit functions
or oracles passed to the embedded command.
-/

namespace PhotoPrismReset

/-! ## Go `regexp.QuoteMeta` and `path/filepath` pattern matching -/

/-- The characters escaped by Go `regexp.QuoteMeta`
(the byte set of the literal backslash-dot-plus-star-question-parens-pipe-brackets-braces-caret-dollar). -/
def isSpecialRe (c : Char) : Bool :=
  c == '\\' || c == '.' || c == '+' || c == '*' || c == '?' || c == '(' || c == ')' ||
  c == '|' || c == '[' || c == ']' || c == Char.ofNat 123 || c == Char.ofNat 125 ||
  c == '^' || c == '$'

/-- Go `regexp.QuoteMeta`: escape every special character with a backslash. -/
def quoteMeta : List Char → List Char
  | [] => []
  | c :: s => if isSpecialRe c then '\\' :: c :: quoteMeta s else c :: quoteMeta s

/-- Go `filepath.match.getEsc`: read one (possibly backslash-escaped) character of a
character class.  Returns `none` on a malformed class (Go `ErrBadPattern`). -/
def getEsc : List Char → Option (Char × List Char)
  | [] => none
  | c :: rest =>
    if c == '-' || c == ']' then none
    else if c == '\\' then
      match rest with
      | [] => none
      | d :: rest2 => if rest2.isEmpty then none else some (d, rest2)
    else if rest.isEmpty then none else some (c, rest)

/-- The range loop of Go `filepath.Match`'s character-class handling, fuelled by the
length of the remaining pattern.  `acc` accumulates whether any range matched `r`,
`seen` whether at least one range has been parsed (Go `nrange > 0`). -/
def classLoop : Nat → List Char → Char → Bool → Bool → Option (Bool × List Char)
  | 0, _, _, _, _ => none
  | fuel + 1, p, r, acc, seen =>
    match p with
    | ']' :: rest => if seen then some (acc, rest) else none
    | _ =>
      match getEsc p with
      | none => none
      | some (lo, p1) =>
        match p1 with
        | '-' :: p2 =>
          match getEsc p2 with
          | none => none
          | some (hi, p3) => classLoop fuel p3 r (acc || (decide (lo ≤ r) && decide (r ≤ hi))) true
        | _ => classLoop fuel p1 r (acc || (lo == r)) true

/-- Match one character `r` against the character class that follows a `[` in the
pattern; handles the optional leading `^` negation.  Returns the match result and
the rest of the pattern after the closing `]`. -/
def stepClass (p : List Char) (r : Char) : Option (Bool × List Char) :=
  match p with
  | '^' :: p1 => (classLoop (p1.length + 1) p1 r false false).map (fun br => (!br.1, br.2))
  | _ => (classLoop (p.length + 1) p r false false)

/-- Go `filepath.Match` on a well-formed pattern (Unix separator rules): `*` matches
any run of non-separator characters, `?` one non-separator character, `\c` the
literal `c`, `[...]` a character class.  Fuelled recursion; the wrapper `goMatch`
supplies enough fuel.  Pattern validity (Go `ErrBadPattern`) is checked separately
by `patOk`. -/
def goMatchAux : Nat → List Char → List Char → Bool
  | 0, _, _ => false
  | fuel + 1, p, s =>
    match p with
    | [] => s.isEmpty
    | pc :: p1 =>
      if pc = '*' then
        goMatchAux fuel p1 s ||
          (match s with
           | [] => false
           | c :: s1 => decide (c ≠ '/') && goMatchAux fuel ('*' :: p1) s1)
      else if pc = '?' then
        (match s with
         | [] => false
         | c :: s1 => decide (c ≠ '/') && goMatchAux fuel p1 s1)
      else if pc = '\\' then
        (match p1, s with
         | pc2 :: p2, c :: s1 => (pc2 == c) && goMatchAux fuel p2 s1
         | _, _ => false)
      else if pc = '[' then
        (match s with
         | [] => false
         | c :: s1 =>
           match stepClass p1 c with
           | none => false
           | some br => br.1 && goMatchAux fuel br.2 s1)
      else
        (match s with
         | [] => false
         | c :: s1 => (pc == c) && goMatchAux fuel p1 s1)

/-- Go `filepath.Match` (answer only; see `patOk` for `ErrBadPattern`). -/
def goMatch (p s : List Char) : Bool := goMatchAux (p.length + s.length + 1) p s

/-- Validity scan of a character class (the parsing skeleton of `classLoop`). -/
def classOkLoop : Nat → List Char → Bool → Option (List Char)
  | 0, _, _ => none
  | fuel + 1, p, seen =>
    match p with
    | ']' :: rest => if seen then some rest else none
    | _ =>
      match getEsc p with
      | none => none
      | some (_, p1) =>
        match p1 with
        | '-' :: p2 =>
          match getEsc p2 with
          | none => none
          | some (_, p3) => classOkLoop fuel p3 true
        | _ => classOkLoop fuel p1 true

/-- Well-formedness of a Go glob pattern: `false` exactly when Go `filepath.Match`
reports `ErrBadPattern` (trailing backslash, malformed character class). -/
def patOkAux : Nat → List Char → Bool
  | 0, _ => false
  | fuel + 1, p =>
    match p with
    | [] => true
    | pc :: p1 =>
      if pc = '\\' then
        (match p1 with
         | [] => false
         | _ :: r2 => patOkAux fuel r2)
      else if pc = '[' then
        (match classOkLoop ((if p1.head? = some '^' then p1.tail else p1).length + 1)
                 (if p1.head? = some '^' then p1.tail else p1) false with
         | none => false
         | some r2 => patOkAux fuel r2)
      else patOkAux fuel p1

/-- Well-formedness of a Go glob pattern (wrapper supplying fuel). -/
def patOk (p : List Char) : Bool := patOkAux (p.length + 1) p

/-- Split a path string at `/` separators (Go `filepath.Glob` matches the pattern
component by component). -/
def splitPath : List Char → List (List Char)
  | [] => [[]]
  | c :: rest =>
    if c = '/' then [] :: splitPath rest
    else
      match splitPath rest with
      | comp :: comps => (c :: comp) :: comps
      | [] => [[c]]

abbrev Name := List Char
abbrev FPath := List Name

/-- Componentwise matching of a split pattern against a split path
(how Go `filepath.Glob` applies `filepath.Match` level by level). -/
def matchComps : List Name → FPath → Bool
  | [], [] => true
  | pc :: ps, x :: xs => goMatch pc x && matchComps ps xs
  | _, _ => false

/-- A filesystem entry: an absolute path (split into components) plus whether it
is a directory. -/
structure Entry where
  path : FPath
  isDir : Bool
  deriving DecidableEq, Repr

/-- Go `filepath.Glob` over a modelled filesystem: reject malformed patterns
(`ErrBadPattern`, as Go's upfront `Match(pattern, "")` syntax check and the
per-directory `Match` calls do), otherwise return every existing path whose
components match the pattern's components. -/
def globModel (pat : List Char) (fs : List Entry) : Except Unit (List FPath) :=
  let pc := splitPath pat
  if pc.all patOk then Except.ok ((fs.map Entry.path).filter (fun p => matchComps pc p))
  else Except.error ()

/-! ## The reset command's data model -/

/-- The five reset stages, in the order `resetAction` visits them. -/
inductive Stage
  | index
  | cache
  | sidecarJson
  | sidecarYaml
  | albumYaml
  deriving DecidableEq, Repr

/-- Observable events of one run of the command: stage prompts, the "keeping"
log lines printed on decline, the schema-reset steps, enumeration failures
(logged by the sidecar stages), the per-item progress markers (a removed path
prints a dot, a failed removal prints an E), and the "found no files" log. -/
inductive Ev
  | prompted (s : Stage)
  | keeping (s : Stage)
  | droppedTables
  | migrated
  | initPw
  | enumFailed (s : Stage)
  | noMatches (s : Stage)
  | removed (s : Stage) (p : FPath)
  | removeFailed (s : Stage) (p : FPath)
  deriving DecidableEq, Repr

/-- The stage an event belongs to (schema events belong to the index stage). -/
def evTag : Ev → Stage
  | Ev.prompted s => s
  | Ev.keeping s => s
  | Ev.enumFailed s => s
  | Ev.noMatches s => s
  | Ev.removed s _ => s
  | Ev.removeFailed s _ => s
  | Ev.droppedTables => Stage.index
  | Ev.migrated => Stage.index
  | Ev.initPw => Stage.index

/-- The configuration the command reads (`config.Config`): whether `conf.Init()`
succeeds, the cache/sidecar/albums root paths and the configured admin password. -/
structure Conf where
  initOk : Bool
  cachePath : List Char
  sidecarPath : List Char
  albumsPath : List Char
  adminPassword : List Char
  deriving DecidableEq, Repr

/-- The CLI context: the `--index` and `--yes` flags, plus the confirmation
answers.  `answers s = true` models `promptui.Prompt.Run()` returning a nil
error for stage `s`; any non-affirmative response or input/interrupt error is
`false` (the prompt library is an external collaborator, modelled per spec 4.1). -/
structure Ctx where
  indexOnly : Bool
  assumeYes : Bool
  answers : Stage → Bool

/-- The glob patterns built by the command (reset.go lines 138, 192, 222, 252):
the configured root path quoted with `regexp.QuoteMeta`, then a fixed suffix. -/
def cachePattern (conf : Conf) : List Char := quoteMeta conf.cachePath ++ "/**".toList

def sidecarJsonPattern (conf : Conf) : List Char := quoteMeta conf.sidecarPath ++ "/**/*.json".toList

def sidecarYamlPattern (conf : Conf) : List Char := quoteMeta conf.sidecarPath ++ "/**/*.yml".toList

def albumPattern (conf : Conf) : List Char := quoteMeta conf.albumsPath ++ "/**/*.yml".toList

/-- The index database: the set of tables, whether the default schema has been
migrated, and the administrator credential. -/
structure Db where
  tables : List (List Char)
  migrated : Bool
  adminPw : Option (List Char)
  deriving DecidableEq, Repr

/-- The tables of the default schema (placeholder contents; only `adminPw` and
the call order matter to the claims). -/
def defaultTables : List (List Char) := ["photos".toList, "files".toList, "albums".toList]

/-- Modelled from the spec: `entity.Entities.Drop` (not under src/) drops every
table known to the schema; with the tables gone the stored admin credential is
gone as well.  The interface (spec section 6) returns no error. -/
def dropAllTables (_db : Db) : Db := { tables := [], migrated := false, adminPw := none }

/-- Modelled from the spec: `entity.MigrateDb(true, false)` (not under src/)
re-applies the default schema.  The interface (spec section 6) returns no error. -/
def migrateDb (db : Db) : Db := { tables := defaultTables, migrated := true, adminPw := db.adminPw }

/-- Modelled from the spec: `entity.Admin.InitPassword` (not under src/)
reinitializes the administrator credential to the given value. -/
def initAdminPassword (pw : List Char) (db : Db) : Db := { db with adminPw := some pw }

/-- reset.go `resetIndexDb` (lines 169-186): drop all tables, migrate the default
schema, and restore the admin password when one is configured.  No error from
the collaborators is consumed, so none can be returned. -/
def resetIndexDb (conf : Conf) (db : Db) : Db × List Ev :=
  let db1 := migrateDb (dropAllTables db)
  if conf.adminPassword = [] then
    (db1, [Ev.droppedTables, Ev.migrated])
  else
    (initAdminPassword conf.adminPassword db1, [Ev.droppedTables, Ev.migrated, Ev.initPw])

/-! ## Removal primitives and the per-stage loops -/

/-- `p` is a strict ancestor directory of `q` (so `q` lies inside the tree of `p`). -/
def isAncestor (p q : FPath) : Bool := decide (p.length < q.length) && q.take p.length == p

/-- Modelled from Go `os.Remove` semantics (spec 4.3): removes a single file or
empty directory; fails on a non-empty directory, a missing path, or when the
oracle `denied` reports a permission error. -/
def osRemove (denied : FPath → Bool) (fs : List Entry) (p : FPath) : Option (List Entry) :=
  if denied p then none
  else if fs.any (fun e => isAncestor p e.path) then none
  else if fs.any (fun e => e.path == p) then some (fs.filter (fun e => !(e.path == p)))
  else none

/-- Modelled from Go `os.RemoveAll` semantics (spec 4.3): removes the path and,
if it is a directory, its entire subtree; a missing path is not an error. -/
def osRemoveAll (denied : FPath → Bool) (fs : List Entry) (p : FPath) : Option (List Entry) :=
  if denied p then none
  else some (fs.filter (fun e => !(e.path == p) && !(isAncestor p e.path)))

/-- The removal loop shared by the file stages (reset.go lines 147-153, 202-208,
232-238, 262-268): try every matched path in order, recording per item whether
its removal succeeded; a failure never stops the loop. -/
def removeLoop (rm : List Entry → FPath → Option (List Entry)) :
    List Entry → List FPath → List Entry × List (FPath × Bool)
  | fs, [] => (fs, [])
  | fs, p :: rest =>
    match rm fs p with
    | none => let r := removeLoop rm fs rest; (r.1, (p, false) :: r.2)
    | some fs1 => let r := removeLoop rm fs1 rest; (r.1, (p, true) :: r.2)

/-- The progress marker printed for one item: a dot on success, an E on failure. -/
def marker (ok : Bool) : Char := if ok then '.' else 'E'

/-- One stage's removal body: when there are matches, run the loop and log one
event per item; otherwise log that no files were found. -/
def runRemoval (s : Stage) (rm : List Entry → FPath → Option (List Entry))
    (ms : List FPath) (fs : List Entry) : List Entry × List Ev :=
  if ms.length > 0 then
    let r := removeLoop rm fs ms
    (r.1, r.2.map (fun pr => if pr.2 then Ev.removed s pr.1 else Ev.removeFailed s pr.1))
  else (fs, [Ev.noMatches s])

/-- reset.go `resetCache` (lines 189-216): glob the cache pattern; an enumeration
error is logged and swallowed; matches are removed with `os.RemoveAll`. -/
def resetCache (conf : Conf) (globFn : List Char → Except Unit (List FPath))
    (denied : FPath → Bool) (fs : List Entry) : List Entry × List Ev :=
  match globFn (cachePattern conf) with
  | Except.error _ => (fs, [Ev.enumFailed Stage.cache])
  | Except.ok ms => runRemoval Stage.cache (osRemoveAll denied) ms fs

/-- reset.go `resetSidecarJson` (lines 219-246): glob the json sidecar pattern;
an enumeration error is logged and swallowed; matches are removed with `os.Remove`. -/
def resetSidecarJson (conf : Conf) (globFn : List Char → Except Unit (List FPath))
    (denied : FPath → Bool) (fs : List Entry) : List Entry × List Ev :=
  match globFn (sidecarJsonPattern conf) with
  | Except.error _ => (fs, [Ev.enumFailed Stage.sidecarJson])
  | Except.ok ms => runRemoval Stage.sidecarJson (osRemove denied) ms fs

/-- reset.go `resetSidecarYaml` (lines 249-276): glob the yaml sidecar pattern;
an enumeration error is logged and swallowed; matches are removed with `os.Remove`. -/
def resetSidecarYaml (conf : Conf) (globFn : List Char → Except Unit (List FPath))
    (denied : FPath → Bool) (fs : List Entry) : List Entry × List Ev :=
  match globFn (sidecarYamlPattern conf) with
  | Except.error _ => (fs, [Ev.enumFailed Stage.sidecarYaml])
  | Except.ok ms => runRemoval Stage.sidecarYaml (osRemove denied) ms fs

/-- The album-yaml block inlined in `resetAction` (reset.go lines 136-160): unlike
the sidecar stages the enumeration error is propagated to the caller. -/
def albumRemoval (conf : Conf) (globFn : List Char → Except Unit (List FPath))
    (denied : FPath → Bool) (fs : List Entry) : Except Unit (List Entry × List Ev) :=
  match globFn (albumPattern conf) with
  | Except.error e => Except.error e
  | Except.ok ms => Except.ok (runRemoval Stage.albumYaml (osRemove denied) ms fs)

/-! ## The orchestrator -/

/-- The errors `resetAction` can return: the bootstrap (`conf.Init()`) error and
the album-yaml enumeration error it forwards. -/
inductive RErr
  | initFail
  | globFail
  deriving DecidableEq, Repr

/-- The observable outcome of one run: the returned error value, the event
trace, and the final filesystem and database states. -/
structure Outcome where
  res : Except RErr Unit
  trace : List Ev
  fs : List Entry
  db : Db
  deriving Repr

/-- The prompt-then-run pattern of the cache and sidecar stages (reset.go
lines 94-127): show the prompt; on a nil prompt error run the stage, otherwise
log "keeping". -/
def promptStage (s : Stage) (answer : Bool) (run : List Entry → List Entry × List Ev)
    (fs : List Entry) : List Entry × List Ev :=
  let r := if answer then run fs else (fs, [Ev.keeping s])
  (r.1, Ev.prompted s :: r.2)

/-- reset.go `resetAction` (lines 41-166): bootstrap, the index stage (prompt
bypassed by `--yes`), early successful return when `--index` or `--yes` is set,
then the cache, json-sidecar, yaml-sidecar and album-yaml stages, each behind
its own confirmation. -/
def resetAction (ctx : Ctx) (conf : Conf) (globFn : List Char → Except Unit (List FPath))
    (denied : FPath → Bool) (fs0 : List Entry) (db0 : Db) : Outcome :=
  if !conf.initOk then { res := Except.error RErr.initFail, trace := [], fs := fs0, db := db0 }
  else
    let pIdx : Bool × List Ev :=
      if ctx.assumeYes then (true, [])
      else if ctx.answers Stage.index then (true, [Ev.prompted Stage.index])
      else (false, [Ev.prompted Stage.index, Ev.keeping Stage.index])
    let dIdx : Db × List Ev := if pIdx.1 then resetIndexDb conf db0 else (db0, [])
    let evA := pIdx.2 ++ dIdx.2
    if ctx.indexOnly || ctx.assumeYes then
      { res := Except.ok (), trace := evA, fs := fs0, db := dIdx.1 }
    else
      let sc := promptStage Stage.cache (ctx.answers Stage.cache) (resetCache conf globFn denied) fs0
      let sj := promptStage Stage.sidecarJson (ctx.answers Stage.sidecarJson)
        (resetSidecarJson conf globFn denied) sc.1
      let sy := promptStage Stage.sidecarYaml (ctx.answers Stage.sidecarYaml)
        (resetSidecarYaml conf globFn denied) sj.1
      let evB := evA ++ sc.2 ++ sj.2 ++ sy.2 ++ [Ev.prompted Stage.albumYaml]
      if ctx.answers Stage.albumYaml then
        match albumRemoval conf globFn denied sy.1 with
        | Except.error _ => { res := Except.error RErr.globFail, trace := evB, fs := sy.1, db := dIdx.1 }
        | Except.ok r => { res := Except.ok (), trace := evB ++ r.2, fs := r.1, db := dIdx.1 }
      else
        { res := Except.ok (), trace := evB ++ [Ev.keeping Stage.albumYaml], fs := sy.1, db := dIdx.1 }

/-- The stages prompted for during a run, in order. -/
def promptsOf (t : List Ev) : List Stage :=
  t.filterMap (fun e => match e with | Ev.prompted s => some s | _ => none)

/-! ## Helper lemmas about the removal loop and stage bodies -/

/-- The events a stage body can emit. -/
def isStageEv (s : Stage) (e : Ev) : Prop :=
  (∃ p, e = Ev.removed s p) ∨ (∃ p, e = Ev.removeFailed s p) ∨
    e = Ev.noMatches s ∨ e = Ev.enumFailed s

theorem removeLoop_map_fst (rm : List Entry → FPath → Option (List Entry))
    (fs : List Entry) (ms : List FPath) : (removeLoop rm fs ms).2.map Prod.fst = ms := by
  induction ms generalizing fs with
  | nil => simp [removeLoop]
  | cons p rest ih => cases h : rm fs p <;> simp [removeLoop, h, ih]

theorem removeLoop_counts (rm : List Entry → FPath → Option (List Entry))
    (fs : List Entry) (ms : List FPath) :
    ((removeLoop rm fs ms).2.map (fun r => marker r.2)).count '.' +
      ((removeLoop rm fs ms).2.map (fun r => marker r.2)).count 'E' = ms.length := by
  induction ms generalizing fs with
  | nil => simp [removeLoop]
  | cons p rest ih =>
    cases h : rm fs p with
    | none =>
      have hr := ih fs
      simp only [marker] at hr
      simp [removeLoop, h, List.count_cons, marker]
      omega
    | some fs1 =>
      have hr := ih fs1
      simp only [marker] at hr
      simp [removeLoop, h, List.count_cons, marker]
      omega

theorem runRemoval_shape (s : Stage) (rm : List Entry → FPath → Option (List Entry))
    (ms : List FPath) (fs : List Entry) :
    ∀ e ∈ (runRemoval s rm ms fs).2, isStageEv s e := by
  intro e he
  unfold runRemoval at he
  split at he
  · simp only [List.mem_map] at he
    obtain ⟨pr, _, rfl⟩ := he
    cases pr.2 <;> simp [isStageEv]
  · simp at he
    simp [he, isStageEv]

theorem resetCache_shape (conf : Conf) (globFn : List Char → Except Unit (List FPath))
    (denied : FPath → Bool) (fs : List Entry) :
    ∀ e ∈ (resetCache conf globFn denied fs).2, isStageEv Stage.cache e := by
  intro e he
  unfold resetCache at he
  split at he
  · simp at he; simp [he, isStageEv]
  · exact runRemoval_shape _ _ _ _ e he

theorem resetSidecarJson_shape (conf : Conf) (globFn : List Char → Except Unit (List FPath))
    (denied : FPath → Bool) (fs : List Entry) :
    ∀ e ∈ (resetSidecarJson conf globFn denied fs).2, isStageEv Stage.sidecarJson e := by
  intro e he
  unfold resetSidecarJson at he
  split at he
  · simp at he; simp [he, isStageEv]
  · exact runRemoval_shape _ _ _ _ e he

theorem resetSidecarYaml_shape (conf : Conf) (globFn : List Char → Except Unit (List FPath))
    (denied : FPath → Bool) (fs : List Entry) :
    ∀ e ∈ (resetSidecarYaml conf globFn denied fs).2, isStageEv Stage.sidecarYaml e := by
  intro e he
  unfold resetSidecarYaml at he
  split at he
  · simp at he; simp [he, isStageEv]
  · exact runRemoval_shape _ _ _ _ e he

theorem isStageEv_tag {s : Stage} {e : Ev} (h : isStageEv s e) : evTag e = s := by
  rcases h with ⟨p, rfl⟩ | ⟨p, rfl⟩ | rfl | rfl <;> rfl

theorem isStageEv_not_prompted {s t : Stage} {e : Ev} (h : isStageEv s e) :
    e ≠ Ev.prompted t := by
  rcases h with ⟨p, rfl⟩ | ⟨p, rfl⟩ | rfl | rfl <;> simp

theorem isStageEv_not_keeping {s t : Stage} {e : Ev} (h : isStageEv s e) :
    e ≠ Ev.keeping t := by
  rcases h with ⟨p, rfl⟩ | ⟨p, rfl⟩ | rfl | rfl <;> simp

theorem resetIndexDb_shape (conf : Conf) (db : Db) :
    ∀ e ∈ (resetIndexDb conf db).2,
      e = Ev.droppedTables ∨ e = Ev.migrated ∨ e = Ev.initPw := by
  intro e he
  by_cases hpw : conf.adminPassword = [] <;> simp [resetIndexDb, hpw] at he <;> tauto

theorem droppedTables_mem_resetIndexDb (conf : Conf) (db : Db) :
    Ev.droppedTables ∈ (resetIndexDb conf db).2 := by
  by_cases hpw : conf.adminPassword = [] <;> simp [resetIndexDb, hpw]

theorem migrated_mem_resetIndexDb (conf : Conf) (db : Db) :
    Ev.migrated ∈ (resetIndexDb conf db).2 := by
  by_cases hpw : conf.adminPassword = [] <;> simp [resetIndexDb, hpw]

theorem promptsOf_append (a b : List Ev) : promptsOf (a ++ b) = promptsOf a ++ promptsOf b := by
  simp [promptsOf]

theorem promptsOf_nil_of_stage {s : Stage} {l : List Ev} (h : ∀ e ∈ l, isStageEv s e) :
    promptsOf l = [] := by
  unfold promptsOf
  rw [List.filterMap_eq_nil_iff]
  intro e he
  rcases h e he with ⟨p, rfl⟩ | ⟨p, rfl⟩ | rfl | rfl <;> rfl

theorem promptsOf_resetIndexDb (conf : Conf) (db : Db) :
    promptsOf (resetIndexDb conf db).2 = [] := by
  by_cases hpw : conf.adminPassword = [] <;> simp [resetIndexDb, hpw, promptsOf]

theorem promptStage_true (s : Stage) (run : List Entry → List Entry × List Ev) (fs : List Entry) :
    promptStage s true run fs = ((run fs).1, Ev.prompted s :: (run fs).2) := rfl

theorem promptStage_false (s : Stage) (run : List Entry → List Entry × List Ev) (fs : List Entry) :
    promptStage s false run fs = (fs, [Ev.prompted s, Ev.keeping s]) := rfl

theorem promptStage_shape (s : Stage) (b : Bool) (run : List Entry → List Entry × List Ev)
    (fs : List Entry) (hrun : ∀ fs1 e, e ∈ (run fs1).2 → isStageEv s e) :
    ∀ e ∈ (promptStage s b run fs).2,
      e = Ev.prompted s ∨ e = Ev.keeping s ∨ isStageEv s e := by
  intro e he
  cases b with
  | false => rw [promptStage_false] at he; simp at he; tauto
  | true =>
    rw [promptStage_true] at he
    simp at he
    rcases he with rfl | he
    · tauto
    · exact Or.inr (Or.inr (hrun fs e he))

theorem promptsOf_promptStage (s : Stage) (b : Bool) (run : List Entry → List Entry × List Ev)
    (fs : List Entry) (hrun : ∀ fs1 e, e ∈ (run fs1).2 → isStageEv s e) :
    promptsOf (promptStage s b run fs).2 = [s] := by
  cases b with
  | false => rw [promptStage_false]; simp [promptsOf]
  | true =>
    rw [promptStage_true]
    show promptsOf (Ev.prompted s :: (run fs).2) = [s]
    rw [show Ev.prompted s :: (run fs).2 = [Ev.prompted s] ++ (run fs).2 from rfl,
      promptsOf_append, promptsOf_nil_of_stage (hrun fs)]
    rfl

theorem isStageEv_removed {s1 s : Stage} {p : FPath} (h : isStageEv s1 (Ev.removed s p)) :
    s = s1 := by
  rcases h with ⟨q, hq⟩ | ⟨q, hq⟩ | hq | hq <;> simp at hq
  exact hq.1

theorem isStageEv_removeFailed {s1 s : Stage} {p : FPath}
    (h : isStageEv s1 (Ev.removeFailed s p)) : s = s1 := by
  rcases h with ⟨q, hq⟩ | ⟨q, hq⟩ | hq | hq <;> simp at hq
  exact hq.1

theorem stage_seg_no_foreign_marks {s1 s : Stage} {p : FPath} {l : List Ev}
    (hl : ∀ e ∈ l, e = Ev.prompted s1 ∨ e = Ev.keeping s1 ∨ isStageEv s1 e)
    (hne : s ≠ s1) : Ev.removed s p ∉ l ∧ Ev.removeFailed s p ∉ l := by
  refine ⟨fun hm => ?_, fun hm => ?_⟩
  · rcases hl _ hm with h | h | h
    · exact absurd h (by simp)
    · exact absurd h (by simp)
    · exact hne (isStageEv_removed h)
  · rcases hl _ hm with h | h | h
    · exact absurd h (by simp)
    · exact absurd h (by simp)
    · exact hne (isStageEv_removeFailed h)

theorem albumRemoval_shape (conf : Conf) (globFn : List Char → Except Unit (List FPath))
    (denied : FPath → Bool) (fs : List Entry) (r : List Entry × List Ev)
    (h : albumRemoval conf globFn denied fs = Except.ok r) :
    ∀ e ∈ r.2, isStageEv Stage.albumYaml e := by
  unfold albumRemoval at h
  split at h
  · exact absurd h (by simp)
  · injection h with h2
    subst h2
    exact runRemoval_shape _ _ _ _

/-! ## C5 -/

/-- C5: for every MatchSet processed by a removal stage's loop, each path is
attempted independently and in order (a failure never prevents later attempts),
every processed item yields exactly one progress marker (a dot for success, an E
for failure), and attempted equals succeeded plus failed. -/
theorem c5_bulk_remover_invariant (rm : List Entry → FPath → Option (List Entry))
    (fs : List Entry) (ms : List FPath) :
    (removeLoop rm fs ms).2.map Prod.fst = ms ∧
    ((removeLoop rm fs ms).2.map (fun r => marker r.2)).length = ms.length ∧
    ((removeLoop rm fs ms).2.map (fun r => marker r.2)).count '.' +
      ((removeLoop rm fs ms).2.map (fun r => marker r.2)).count 'E' = ms.length := by
  refine ⟨removeLoop_map_fst rm fs ms, ?_, removeLoop_counts rm fs ms⟩
  have h := removeLoop_map_fst rm fs ms
  calc ((removeLoop rm fs ms).2.map (fun r => marker r.2)).length
      = (removeLoop rm fs ms).2.length := by simp
    _ = ((removeLoop rm fs ms).2.map Prod.fst).length := by simp
    _ = ms.length := by rw [h]

/-! ## C1 and C8: truncation of the session after the index stage -/

/-- C1: when `--yes` is set (and bootstrap succeeds), the session runs the index
stage without showing any prompt and returns success; its whole trace is the
schema-reset events, so the cache, json-sidecar, yaml-sidecar and album-yaml
stages are neither prompted for nor executed (the filesystem is untouched),
regardless of `--index`. -/
theorem c1_assume_yes_ends_after_index (ctx : Ctx) (conf : Conf)
    (globFn : List Char → Except Unit (List FPath)) (denied : FPath → Bool)
    (fs0 : List Entry) (db0 : Db)
    (hy : ctx.assumeYes = true) (hi : conf.initOk = true) :
    (resetAction ctx conf globFn denied fs0 db0).res = Except.ok () ∧
    (resetAction ctx conf globFn denied fs0 db0).trace = (resetIndexDb conf db0).2 ∧
    (resetAction ctx conf globFn denied fs0 db0).fs = fs0 ∧
    Ev.droppedTables ∈ (resetAction ctx conf globFn denied fs0 db0).trace ∧
    (∀ s, Ev.prompted s ∉ (resetAction ctx conf globFn denied fs0 db0).trace) := by
  have htr : resetAction ctx conf globFn denied fs0 db0 =
      { res := Except.ok (), trace := (resetIndexDb conf db0).2, fs := fs0,
        db := (resetIndexDb conf db0).1 } := by
    simp [resetAction, hy, hi]
  refine ⟨by rw [htr], by rw [htr], by rw [htr], ?_, ?_⟩
  · rw [htr]
    exact droppedTables_mem_resetIndexDb conf db0
  · intro s hmem
    rw [htr] at hmem
    rcases resetIndexDb_shape conf db0 _ hmem with h | h | h <;> exact absurd h (by simp)

def ctxAllYes : Ctx := { indexOnly := false, assumeYes := true, answers := fun _ => false }

def confPlain : Conf :=
  { initOk := true, cachePath := "/cache".toList, sidecarPath := "/sidecar".toList,
    albumsPath := "/albums".toList, adminPassword := [] }

def dbPlain : Db := { tables := defaultTables, migrated := true, adminPw := none }

theorem c1_witness :
    ctxAllYes.assumeYes = true ∧ confPlain.initOk = true ∧
    (resetAction ctxAllYes confPlain (fun _ => Except.ok []) (fun _ => false) [] dbPlain).res =
      Except.ok () ∧
    (resetAction ctxAllYes confPlain (fun _ => Except.ok []) (fun _ => false) [] dbPlain).trace =
      (resetIndexDb confPlain dbPlain).2 := by
  have h := c1_assume_yes_ends_after_index ctxAllYes confPlain (fun _ => Except.ok [])
    (fun _ => false) [] dbPlain rfl rfl
  exact ⟨rfl, rfl, h.1, h.2.1⟩

/-- C8: with `--index` set and `--yes` not set, the session shows exactly one
prompt (for the index stage) and then returns success with the filesystem
untouched, whether or not the index prompt was affirmed. -/
theorem c8_index_only_prompts_once (ctx : Ctx) (conf : Conf)
    (globFn : List Char → Except Unit (List FPath)) (denied : FPath → Bool)
    (fs0 : List Entry) (db0 : Db)
    (hio : ctx.indexOnly = true) (hy : ctx.assumeYes = false) (hi : conf.initOk = true) :
    (resetAction ctx conf globFn denied fs0 db0).res = Except.ok () ∧
    promptsOf (resetAction ctx conf globFn denied fs0 db0).trace = [Stage.index] ∧
    (resetAction ctx conf globFn denied fs0 db0).fs = fs0 := by
  cases ha : ctx.answers Stage.index with
  | false =>
    have htr : resetAction ctx conf globFn denied fs0 db0 =
        { res := Except.ok (), trace := [Ev.prompted Stage.index, Ev.keeping Stage.index],
          fs := fs0, db := db0 } := by
      simp [resetAction, hy, hi, hio, ha]
    refine ⟨by rw [htr], ?_, by rw [htr]⟩
    rw [htr]
    rfl
  | true =>
    have htr : resetAction ctx conf globFn denied fs0 db0 =
        { res := Except.ok (), trace := [Ev.prompted Stage.index] ++ (resetIndexDb conf db0).2,
          fs := fs0, db := (resetIndexDb conf db0).1 } := by
      simp [resetAction, hy, hi, hio, ha]
    refine ⟨by rw [htr], ?_, by rw [htr]⟩
    rw [htr]
    show promptsOf ([Ev.prompted Stage.index] ++ (resetIndexDb conf db0).2) = [Stage.index]
    rw [promptsOf_append, promptsOf_resetIndexDb]
    rfl

def ctxIndexOnly : Ctx := { indexOnly := true, assumeYes := false, answers := fun _ => true }

theorem c8_witness :
    ctxIndexOnly.indexOnly = true ∧ ctxIndexOnly.assumeYes = false ∧
    (resetAction ctxIndexOnly confPlain (fun _ => Except.ok []) (fun _ => false) [] dbPlain).res =
      Except.ok () ∧
    promptsOf (resetAction ctxIndexOnly confPlain (fun _ => Except.ok [])
      (fun _ => false) [] dbPlain).trace = [Stage.index] := by
  have h := c8_index_only_prompts_once ctxIndexOnly confPlain (fun _ => Except.ok [])
    (fun _ => false) [] dbPlain rfl rfl rfl
  exact ⟨rfl, rfl, h.1, h.2.1⟩

/-! ## Trace decomposition of a full (non-truncated) session -/

theorem resetAction_trace_decomp (ctx : Ctx) (conf : Conf)
    (globFn : List Char → Except Unit (List FPath)) (denied : FPath → Bool)
    (fs0 : List Entry) (db0 : Db)
    (hi : conf.initOk = true) (hio : ctx.indexOnly = false) (hy : ctx.assumeYes = false) :
    ∃ tail : List Ev,
      (resetAction ctx conf globFn denied fs0 db0).trace =
        (if ctx.answers Stage.index then
          Ev.prompted Stage.index :: (resetIndexDb conf db0).2
         else [Ev.prompted Stage.index, Ev.keeping Stage.index]) ++
        (promptStage Stage.cache (ctx.answers Stage.cache)
          (resetCache conf globFn denied) fs0).2 ++
        (promptStage Stage.sidecarJson (ctx.answers Stage.sidecarJson)
          (resetSidecarJson conf globFn denied)
          (promptStage Stage.cache (ctx.answers Stage.cache)
            (resetCache conf globFn denied) fs0).1).2 ++
        (promptStage Stage.sidecarYaml (ctx.answers Stage.sidecarYaml)
          (resetSidecarYaml conf globFn denied)
          (promptStage Stage.sidecarJson (ctx.answers Stage.sidecarJson)
            (resetSidecarJson conf globFn denied)
            (promptStage Stage.cache (ctx.answers Stage.cache)
              (resetCache conf globFn denied) fs0).1).1).2 ++
        (Ev.prompted Stage.albumYaml :: tail) ∧
      (∀ e ∈ tail, e = Ev.keeping Stage.albumYaml ∨ isStageEv Stage.albumYaml e) ∧
      (ctx.answers Stage.albumYaml = false → tail = [Ev.keeping Stage.albumYaml]) ∧
      (resetAction ctx conf globFn denied fs0 db0).db =
        (if ctx.answers Stage.index then (resetIndexDb conf db0).1 else db0) := by
  cases hal : ctx.answers Stage.albumYaml with
  | false =>
    refine ⟨[Ev.keeping Stage.albumYaml], ?_, ?_, fun _ => rfl, ?_⟩
    · cases hidx : ctx.answers Stage.index <;>
        simp [resetAction, hi, hio, hy, hidx, hal]
    · intro e he
      simp at he
      exact Or.inl he
    · cases hidx : ctx.answers Stage.index <;>
        simp [resetAction, hi, hio, hy, hidx, hal]
  | true =>
    cases hg : albumRemoval conf globFn denied
        (promptStage Stage.sidecarYaml (ctx.answers Stage.sidecarYaml)
          (resetSidecarYaml conf globFn denied)
          (promptStage Stage.sidecarJson (ctx.answers Stage.sidecarJson)
            (resetSidecarJson conf globFn denied)
            (promptStage Stage.cache (ctx.answers Stage.cache)
              (resetCache conf globFn denied) fs0).1).1).1 with
    | error e =>
      refine ⟨[], ?_, by simp, by intro h; exact absurd h (by simp), ?_⟩
      · cases hidx : ctx.answers Stage.index <;>
          simp [resetAction, hi, hio, hy, hidx, hal, hg]
      · cases hidx : ctx.answers Stage.index <;>
          simp [resetAction, hi, hio, hy, hidx, hal, hg]
    | ok r =>
      refine ⟨r.2, ?_, ?_, by intro h; exact absurd h (by simp), ?_⟩
      · cases hidx : ctx.answers Stage.index <;>
          simp [resetAction, hi, hio, hy, hidx, hal, hg]
      · intro e he
        exact Or.inr (albumRemoval_shape _ _ _ _ _ hg e he)
      · cases hidx : ctx.answers Stage.index <;>
          simp [resetAction, hi, hio, hy, hidx, hal, hg]

theorem promptsOf_idxseg (conf : Conf) (db0 : Db) (b : Bool) :
    promptsOf (if b then Ev.prompted Stage.index :: (resetIndexDb conf db0).2
      else [Ev.prompted Stage.index, Ev.keeping Stage.index]) = [Stage.index] := by
  cases b with
  | false => rfl
  | true =>
    show promptsOf ([Ev.prompted Stage.index] ++ (resetIndexDb conf db0).2) = [Stage.index]
    rw [promptsOf_append, promptsOf_resetIndexDb]
    rfl

theorem promptsOf_albumtail {tail : List Ev}
    (htail : ∀ e ∈ tail, e = Ev.keeping Stage.albumYaml ∨ isStageEv Stage.albumYaml e) :
    promptsOf tail = [] := by
  unfold promptsOf
  rw [List.filterMap_eq_nil_iff]
  intro e he
  rcases htail e he with rfl | h
  · rfl
  · rcases h with ⟨p, rfl⟩ | ⟨p, rfl⟩ | rfl | rfl <;> rfl

theorem marks_notin_idxseg (conf : Conf) (db0 : Db) (b : Bool) (s : Stage) (p : FPath) :
    Ev.removed s p ∉ (if b then Ev.prompted Stage.index :: (resetIndexDb conf db0).2
      else [Ev.prompted Stage.index, Ev.keeping Stage.index]) ∧
    Ev.removeFailed s p ∉ (if b then Ev.prompted Stage.index :: (resetIndexDb conf db0).2
      else [Ev.prompted Stage.index, Ev.keeping Stage.index]) := by
  cases b with
  | false => simp
  | true =>
    simp only [if_pos]
    constructor <;> intro hm <;> simp at hm <;>
      rcases resetIndexDb_shape conf db0 _ hm with h | h | h <;> exact absurd h (by simp)

theorem marks_notin_promptStage {s1 s : Stage} (b : Bool)
    (run : List Entry → List Entry × List Ev) (fs : List Entry) (p : FPath)
    (hrun : ∀ fs1 e, e ∈ (run fs1).2 → isStageEv s1 e) (hne : s ≠ s1) :
    Ev.removed s p ∉ (promptStage s1 b run fs).2 ∧
    Ev.removeFailed s p ∉ (promptStage s1 b run fs).2 :=
  stage_seg_no_foreign_marks (promptStage_shape s1 b run fs hrun) hne

theorem marks_notin_albumtail {tail : List Ev} {s : Stage} (p : FPath)
    (htail : ∀ e ∈ tail, e = Ev.keeping Stage.albumYaml ∨ isStageEv Stage.albumYaml e)
    (hne : s ≠ Stage.albumYaml) :
    Ev.removed s p ∉ tail ∧ Ev.removeFailed s p ∉ tail := by
  refine stage_seg_no_foreign_marks (fun e he => ?_) hne
  rcases htail e he with rfl | h
  · exact Or.inr (Or.inl rfl)
  · exact Or.inr (Or.inr h)

/-- In a full (non-truncated) session every one of the five stages is prompted
for, in order, no matter how any prompt is answered and no matter what the
enumeration and removal oracles do. -/
theorem resetAction_prompts_all (ctx : Ctx) (conf : Conf)
    (globFn : List Char → Except Unit (List FPath)) (denied : FPath → Bool)
    (fs0 : List Entry) (db0 : Db)
    (hi : conf.initOk = true) (hio : ctx.indexOnly = false) (hy : ctx.assumeYes = false) :
    promptsOf (resetAction ctx conf globFn denied fs0 db0).trace =
      [Stage.index, Stage.cache, Stage.sidecarJson, Stage.sidecarYaml, Stage.albumYaml] := by
  obtain ⟨tail, htr, htail, -, -⟩ :=
    resetAction_trace_decomp ctx conf globFn denied fs0 db0 hi hio hy
  rw [htr, promptsOf_append, promptsOf_append, promptsOf_append, promptsOf_append,
    promptsOf_idxseg,
    promptsOf_promptStage _ _ _ _ (fun fs1 => resetCache_shape conf globFn denied fs1),
    promptsOf_promptStage _ _ _ _ (fun fs1 => resetSidecarJson_shape conf globFn denied fs1),
    promptsOf_promptStage _ _ _ _ (fun fs1 => resetSidecarYaml_shape conf globFn denied fs1),
    show Ev.prompted Stage.albumYaml :: tail = [Ev.prompted Stage.albumYaml] ++ tail from rfl,
    promptsOf_append, promptsOf_albumtail htail]
  rfl

/-! ## C4 -/

/-- C4: declining a stage's confirmation is a default-deny no-op for that stage
and never aborts the rest of the session: a "keeping" line for the stage is
logged, no removal (successful or failed) of any file of that stage happens,
every one of the five stage decisions is still reached, and declining the index
stage leaves the database untouched.  The gate itself is the boolean
`Ctx.answers`: per spec 4.1 the prompt library resolves any response other than
an explicit affirmative, including input or interrupt errors, to false. -/
theorem c4_decline_is_noop (ctx : Ctx) (conf : Conf)
    (globFn : List Char → Except Unit (List FPath)) (denied : FPath → Bool)
    (fs0 : List Entry) (db0 : Db) (s : Stage)
    (hi : conf.initOk = true) (hio : ctx.indexOnly = false) (hy : ctx.assumeYes = false)
    (ha : ctx.answers s = false) :
    Ev.keeping s ∈ (resetAction ctx conf globFn denied fs0 db0).trace ∧
    (∀ p, Ev.removed s p ∉ (resetAction ctx conf globFn denied fs0 db0).trace ∧
      Ev.removeFailed s p ∉ (resetAction ctx conf globFn denied fs0 db0).trace) ∧
    promptsOf (resetAction ctx conf globFn denied fs0 db0).trace =
      [Stage.index, Stage.cache, Stage.sidecarJson, Stage.sidecarYaml, Stage.albumYaml] ∧
    (s = Stage.index → (resetAction ctx conf globFn denied fs0 db0).db = db0) := by
  obtain ⟨tail, htr, htail, htailF, hdb⟩ :=
    resetAction_trace_decomp ctx conf globFn denied fs0 db0 hi hio hy
  refine ⟨?_, ?_,
    resetAction_prompts_all ctx conf globFn denied fs0 db0 hi hio hy, ?_⟩
  · cases s with
    | index => simp [htr, ha]
    | cache => simp [htr, ha, promptStage_false]
    | sidecarJson => simp [htr, ha, promptStage_false]
    | sidecarYaml => simp [htr, ha, promptStage_false]
    | albumYaml => simp [htr, htailF ha]
  · intro p
    refine ⟨fun hm => ?_, fun hm => ?_⟩ <;>
    · rw [htr] at hm
      simp only [List.mem_append, List.mem_cons] at hm
      rcases hm with ((((hA | hB) | hC) | hD) | hE | hF)
      · first
        | exact (marks_notin_idxseg conf db0 _ s p).1 hA
        | exact (marks_notin_idxseg conf db0 _ s p).2 hA
      · by_cases hs : s = Stage.cache
        · subst hs
          rw [ha, promptStage_false] at hB
          simp at hB
        · first
          | exact (marks_notin_promptStage _ _ _ p
              (fun fs1 => resetCache_shape conf globFn denied fs1) hs).1 hB
          | exact (marks_notin_promptStage _ _ _ p
              (fun fs1 => resetCache_shape conf globFn denied fs1) hs).2 hB
      · by_cases hs : s = Stage.sidecarJson
        · subst hs
          rw [ha, promptStage_false] at hC
          simp at hC
        · first
          | exact (marks_notin_promptStage _ _ _ p
              (fun fs1 => resetSidecarJson_shape conf globFn denied fs1) hs).1 hC
          | exact (marks_notin_promptStage _ _ _ p
              (fun fs1 => resetSidecarJson_shape conf globFn denied fs1) hs).2 hC
      · by_cases hs : s = Stage.sidecarYaml
        · subst hs
          rw [ha, promptStage_false] at hD
          simp at hD
        · first
          | exact (marks_notin_promptStage _ _ _ p
              (fun fs1 => resetSidecarYaml_shape conf globFn denied fs1) hs).1 hD
          | exact (marks_notin_promptStage _ _ _ p
              (fun fs1 => resetSidecarYaml_shape conf globFn denied fs1) hs).2 hD
      · simp at hE
      · by_cases hs : s = Stage.albumYaml
        · subst hs
          rw [htailF ha] at hF
          simp at hF
        · first
          | exact (marks_notin_albumtail p htail hs).1 hF
          | exact (marks_notin_albumtail p htail hs).2 hF
  · intro hs
    subst hs
    rw [hdb, ha]
    simp

def ctxAllNo : Ctx := { indexOnly := false, assumeYes := false, answers := fun _ => false }

theorem c4_witness :
    ctxAllNo.answers Stage.index = false ∧
    Ev.keeping Stage.index ∈
      (resetAction ctxAllNo confPlain (fun _ => Except.ok []) (fun _ => false) [] dbPlain).trace ∧
    promptsOf (resetAction ctxAllNo confPlain (fun _ => Except.ok [])
        (fun _ => false) [] dbPlain).trace =
      [Stage.index, Stage.cache, Stage.sidecarJson, Stage.sidecarYaml, Stage.albumYaml] ∧
    (resetAction ctxAllNo confPlain (fun _ => Except.ok []) (fun _ => false) [] dbPlain).db =
      dbPlain := by
  have h := c4_decline_is_noop ctxAllNo confPlain (fun _ => Except.ok []) (fun _ => false)
    [] dbPlain Stage.index rfl rfl rfl rfl
  exact ⟨rfl, h.1, h.2.2.1, h.2.2.2 rfl⟩

/-! ## C7 -/

theorem resetSidecarJson_enumFail (conf : Conf) (globFn : List Char → Except Unit (List FPath))
    (denied : FPath → Bool) (fs : List Entry)
    (h : globFn (sidecarJsonPattern conf) = Except.error ()) :
    resetSidecarJson conf globFn denied fs = (fs, [Ev.enumFailed Stage.sidecarJson]) := by
  simp [resetSidecarJson, h]

theorem resetSidecarYaml_enumFail (conf : Conf) (globFn : List Char → Except Unit (List FPath))
    (denied : FPath → Bool) (fs : List Entry)
    (h : globFn (sidecarYamlPattern conf) = Except.error ()) :
    resetSidecarYaml conf globFn denied fs = (fs, [Ev.enumFailed Stage.sidecarYaml]) := by
  simp [resetSidecarYaml, h]

/-- C7: enumeration failures are handled asymmetrically.  A json-sidecar or
yaml-sidecar enumeration error is only logged: no removal is attempted for
that stage and the remaining stage decisions are still reached.  An album-yaml
enumeration error is propagated as the command's returned error. -/
theorem c7_enum_error_asymmetry (ctx : Ctx) (conf : Conf)
    (globFn : List Char → Except Unit (List FPath)) (denied : FPath → Bool)
    (fs0 : List Entry) (db0 : Db)
    (hi : conf.initOk = true) (hio : ctx.indexOnly = false) (hy : ctx.assumeYes = false) :
    (ctx.answers Stage.sidecarJson = true →
      globFn (sidecarJsonPattern conf) = Except.error () →
      Ev.enumFailed Stage.sidecarJson ∈ (resetAction ctx conf globFn denied fs0 db0).trace ∧
      (∀ p, Ev.removed Stage.sidecarJson p ∉ (resetAction ctx conf globFn denied fs0 db0).trace ∧
        Ev.removeFailed Stage.sidecarJson p ∉
          (resetAction ctx conf globFn denied fs0 db0).trace) ∧
      Stage.sidecarYaml ∈ promptsOf (resetAction ctx conf globFn denied fs0 db0).trace ∧
      Stage.albumYaml ∈ promptsOf (resetAction ctx conf globFn denied fs0 db0).trace) ∧
    (ctx.answers Stage.sidecarYaml = true →
      globFn (sidecarYamlPattern conf) = Except.error () →
      Ev.enumFailed Stage.sidecarYaml ∈ (resetAction ctx conf globFn denied fs0 db0).trace ∧
      (∀ p, Ev.removed Stage.sidecarYaml p ∉ (resetAction ctx conf globFn denied fs0 db0).trace ∧
        Ev.removeFailed Stage.sidecarYaml p ∉
          (resetAction ctx conf globFn denied fs0 db0).trace) ∧
      Stage.albumYaml ∈ promptsOf (resetAction ctx conf globFn denied fs0 db0).trace) ∧
    (ctx.answers Stage.albumYaml = true →
      globFn (albumPattern conf) = Except.error () →
      (resetAction ctx conf globFn denied fs0 db0).res = Except.error RErr.globFail) := by
  obtain ⟨tail, htr, htail, htailF, hdb⟩ :=
    resetAction_trace_decomp ctx conf globFn denied fs0 db0 hi hio hy
  have hall := resetAction_prompts_all ctx conf globFn denied fs0 db0 hi hio hy
  refine ⟨fun hj hge => ⟨?_, ?_, ?_, ?_⟩, fun hj hge => ⟨?_, ?_, ?_⟩, fun hal hga => ?_⟩
  · rw [htr]
    simp [hj, promptStage_true, resetSidecarJson_enumFail conf globFn denied _ hge]
  · intro p
    refine ⟨fun hm => ?_, fun hm => ?_⟩ <;>
    · rw [htr] at hm
      simp only [List.mem_append, List.mem_cons] at hm
      rcases hm with ((((hA | hB) | hC) | hD) | hE | hF)
      · first
        | exact (marks_notin_idxseg conf db0 _ _ p).1 hA
        | exact (marks_notin_idxseg conf db0 _ _ p).2 hA
      · first
        | exact (marks_notin_promptStage _ _ _ p
            (fun fs1 => resetCache_shape conf globFn denied fs1) (by simp)).1 hB
        | exact (marks_notin_promptStage _ _ _ p
            (fun fs1 => resetCache_shape conf globFn denied fs1) (by simp)).2 hB
      · rw [hj, promptStage_true, resetSidecarJson_enumFail conf globFn denied _ hge] at hC
        simp at hC
      · first
        | exact (marks_notin_promptStage _ _ _ p
            (fun fs1 => resetSidecarYaml_shape conf globFn denied fs1) (by simp)).1 hD
        | exact (marks_notin_promptStage _ _ _ p
            (fun fs1 => resetSidecarYaml_shape conf globFn denied fs1) (by simp)).2 hD
      · simp at hE
      · first
        | exact (marks_notin_albumtail p htail (by simp)).1 hF
        | exact (marks_notin_albumtail p htail (by simp)).2 hF
  · rw [hall]
    simp
  · rw [hall]
    simp
  · rw [htr]
    simp [hj, promptStage_true, resetSidecarYaml_enumFail conf globFn denied _ hge]
  · intro p
    refine ⟨fun hm => ?_, fun hm => ?_⟩ <;>
    · rw [htr] at hm
      simp only [List.mem_append, List.mem_cons] at hm
      rcases hm with ((((hA | hB) | hC) | hD) | hE | hF)
      · first
        | exact (marks_notin_idxseg conf db0 _ _ p).1 hA
        | exact (marks_notin_idxseg conf db0 _ _ p).2 hA
      · first
        | exact (marks_notin_promptStage _ _ _ p
            (fun fs1 => resetCache_shape conf globFn denied fs1) (by simp)).1 hB
        | exact (marks_notin_promptStage _ _ _ p
            (fun fs1 => resetCache_shape conf globFn denied fs1) (by simp)).2 hB
      · first
        | exact (marks_notin_promptStage _ _ _ p
            (fun fs1 => resetSidecarJson_shape conf globFn denied fs1) (by simp)).1 hC
        | exact (marks_notin_promptStage _ _ _ p
            (fun fs1 => resetSidecarJson_shape conf globFn denied fs1) (by simp)).2 hC
      · rw [hj, promptStage_true, resetSidecarYaml_enumFail conf globFn denied _ hge] at hD
        simp at hD
      · simp at hE
      · first
        | exact (marks_notin_albumtail p htail (by simp)).1 hF
        | exact (marks_notin_albumtail p htail (by simp)).2 hF
  · rw [hall]
    simp
  · cases hidx : ctx.answers Stage.index <;>
      simp [resetAction, hi, hio, hy, hidx, hal, albumRemoval, hga]

def globAllFail : List Char → Except Unit (List FPath) := fun _ => Except.error ()

def ctxFull : Ctx := { indexOnly := false, assumeYes := false, answers := fun _ => true }

theorem c7_witness :
    ctxFull.answers Stage.sidecarJson = true ∧
    globAllFail (sidecarJsonPattern confPlain) = Except.error () ∧
    ctxFull.answers Stage.albumYaml = true ∧
    globAllFail (albumPattern confPlain) = Except.error () ∧
    Ev.enumFailed Stage.sidecarJson ∈
      (resetAction ctxFull confPlain globAllFail (fun _ => false) [] dbPlain).trace ∧
    (resetAction ctxFull confPlain globAllFail (fun _ => false) [] dbPlain).res =
      Except.error RErr.globFail := by
  have h := c7_enum_error_asymmetry ctxFull confPlain globAllFail (fun _ => false) [] dbPlain
    rfl rfl rfl
  exact ⟨rfl, rfl, rfl, rfl, (h.1 rfl rfl).1, h.2.2 rfl rfl⟩

/-! ## C3 -/

/-- C3 counterexample: a run in which bootstrap succeeds and the schema reset
runs to completion (tables dropped and migrated), yet the command returns an
error: every stage is confirmed and the album-yaml enumeration fails, whose
error `resetAction` forwards.  This refutes "the command exits successfully
unless bootstrap or schema reset fails".  (The schema-reset collaborators
return no error at all to `resetAction`, so a schema failure can never be the
cause of a non-zero exit.) -/
theorem c3_counterexample :
    confPlain.initOk = true ∧
    Ev.droppedTables ∈
      (resetAction ctxFull confPlain globAllFail (fun _ => false) [] dbPlain).trace ∧
    Ev.migrated ∈
      (resetAction ctxFull confPlain globAllFail (fun _ => false) [] dbPlain).trace ∧
    (resetAction ctxFull confPlain globAllFail (fun _ => false) [] dbPlain).res ≠
      Except.ok () := by
  have hres : (resetAction ctxFull confPlain globAllFail (fun _ => false) [] dbPlain).res =
      Except.error RErr.globFail := rfl
  refine ⟨rfl, by decide, by decide, ?_⟩
  rw [hres]
  simp

/-- C3 as amended: schema reset never causes an error exit (its collaborators
return nothing that `resetAction` consumes); the command returns success
exactly when bootstrap succeeds and, additionally, either the session is
truncated after the index stage (`--index` or `--yes`), the album-yaml stage
is declined, or the album-yaml enumeration succeeds.  Equivalently, the only
error exits are a bootstrap failure and a confirmed album-yaml stage whose
enumeration fails. -/
theorem c3_amended_exit_characterization (ctx : Ctx) (conf : Conf)
    (globFn : List Char → Except Unit (List FPath)) (denied : FPath → Bool)
    (fs0 : List Entry) (db0 : Db) :
    (resetAction ctx conf globFn denied fs0 db0).res = Except.ok () ↔
      (conf.initOk = true ∧
        (ctx.indexOnly = true ∨ ctx.assumeYes = true ∨
          ctx.answers Stage.albumYaml = false ∨
          ∃ ms, globFn (albumPattern conf) = Except.ok ms)) := by
  cases hInit : conf.initOk <;>
  cases hYes : ctx.assumeYes <;>
  cases hIdx : ctx.indexOnly <;>
  cases hAns : ctx.answers Stage.albumYaml <;>
  cases hG : globFn (albumPattern conf) <;>
  simp [resetAction, albumRemoval, hInit, hYes, hIdx, hAns, hG]

/-! ## C9 -/

/-- C9: after the schema-reset stage (drop all tables, then migrate), a
configured non-empty administrator password is reinstalled verbatim as the
administrator credential; with an empty configured password the credential
initialization step is not invoked and the fresh schema has no credential. -/
theorem c9_admin_password_restored (conf : Conf) (db : Db) :
    (conf.adminPassword ≠ [] →
      (resetIndexDb conf db).1.adminPw = some conf.adminPassword ∧
      Ev.initPw ∈ (resetIndexDb conf db).2) ∧
    (conf.adminPassword = [] →
      (resetIndexDb conf db).1.adminPw = none ∧
      Ev.initPw ∉ (resetIndexDb conf db).2) := by
  by_cases h : conf.adminPassword = [] <;>
    simp [resetIndexDb, initAdminPassword, migrateDb, dropAllTables, h]

def confSecret : Conf :=
  { initOk := true, cachePath := "/cache".toList, sidecarPath := "/sidecar".toList,
    albumsPath := "/albums".toList, adminPassword := "secret123".toList }

theorem c9_witness :
    confSecret.adminPassword ≠ [] ∧
    (resetIndexDb confSecret dbPlain).1.adminPw = some "secret123".toList ∧
    Ev.initPw ∈ (resetIndexDb confSecret dbPlain).2 := by
  have h := (c9_admin_password_restored confSecret dbPlain).1 (by decide)
  exact ⟨by decide, h.1, h.2⟩

/-! ## C10 -/

/-- C10: the removal primitive differs by stage.  A matched entry of the cache
stage is removed recursively (the entry together with its entire subtree),
while the json-sidecar, yaml-sidecar and album-yaml stages remove each matched
path as a single file only, so a matched non-empty directory in those stages is
counted as a per-item failure (an E marker) and nothing is deleted there. -/
theorem c10_removal_primitives (conf : Conf)
    (globFn : List Char → Except Unit (List FPath)) (fs : List Entry) (m : FPath) :
    (globFn (cachePattern conf) = Except.ok [m] →
      (resetCache conf globFn (fun _ => false) fs).1 =
        fs.filter (fun e => !(e.path == m) && !(isAncestor m e.path))) ∧
    (globFn (sidecarJsonPattern conf) = Except.ok [m] →
      fs.any (fun e => isAncestor m e.path) = true →
      (resetSidecarJson conf globFn (fun _ => false) fs).1 = fs ∧
      Ev.removeFailed Stage.sidecarJson m ∈
        (resetSidecarJson conf globFn (fun _ => false) fs).2) ∧
    (globFn (sidecarYamlPattern conf) = Except.ok [m] →
      fs.any (fun e => isAncestor m e.path) = true →
      (resetSidecarYaml conf globFn (fun _ => false) fs).1 = fs ∧
      Ev.removeFailed Stage.sidecarYaml m ∈
        (resetSidecarYaml conf globFn (fun _ => false) fs).2) ∧
    (globFn (albumPattern conf) = Except.ok [m] →
      fs.any (fun e => isAncestor m e.path) = true →
      albumRemoval conf globFn (fun _ => false) fs =
        Except.ok (fs, [Ev.removeFailed Stage.albumYaml m])) := by
  refine ⟨fun hg => ?_, fun hg hanc => ?_, fun hg hanc => ?_, fun hg hanc => ?_⟩
  · simp [resetCache, hg, runRemoval, removeLoop, osRemoveAll]
  · constructor <;> simp [resetSidecarJson, hg, runRemoval, removeLoop, osRemove, hanc]
  · constructor <;> simp [resetSidecarYaml, hg, runRemoval, removeLoop, osRemove, hanc]
  · simp [albumRemoval, hg, runRemoval, removeLoop, osRemove, hanc]

def mDir : FPath := ["d".toList]

def fsDir : List Entry := [⟨["d".toList], true⟩, ⟨["d".toList, "f.json".toList], false⟩]

def globOne : List Char → Except Unit (List FPath) := fun _ => Except.ok [["d".toList]]

theorem c10_witness :
    fsDir.any (fun e => isAncestor mDir e.path) = true ∧
    (resetCache confPlain globOne (fun _ => false) fsDir).1 = [] ∧
    (resetSidecarJson confPlain globOne (fun _ => false) fsDir).1 = fsDir ∧
    Ev.removeFailed Stage.sidecarJson mDir ∈
      (resetSidecarJson confPlain globOne (fun _ => false) fsDir).2 ∧
    albumRemoval confPlain globOne (fun _ => false) fsDir =
      Except.ok (fsDir, [Ev.removeFailed Stage.albumYaml mDir]) := by
  have h := c10_removal_primitives confPlain globOne fsDir mDir
  have h1 := h.1 rfl
  have h2 := h.2.1 rfl (by decide)
  have h4 := h.2.2.2 rfl (by decide)
  refine ⟨by decide, ?_, h2.1, h2.2, h4⟩
  rw [h1]
  decide

/-! ## Matching a quoted root path is literal matching -/

theorem not_special_facts {x : Char} (hx : isSpecialRe x = false) :
    x ≠ '*' ∧ x ≠ '?' ∧ x ≠ '\\' ∧ x ≠ '[' := by
  refine ⟨?_, ?_, ?_, ?_⟩ <;> rintro rfl <;> simp [isSpecialRe] at hx

theorem quoteMeta_cons_special {x : Char} (c : List Char) (hx : isSpecialRe x = true) :
    quoteMeta (x :: c) = '\\' :: x :: quoteMeta c := by
  simp [quoteMeta, hx]

theorem quoteMeta_cons_plain {x : Char} (c : List Char) (hx : isSpecialRe x = false) :
    quoteMeta (x :: c) = x :: quoteMeta c := by
  simp [quoteMeta, hx]

theorem quoteMeta_length (c : List Char) : c.length ≤ (quoteMeta c).length := by
  induction c with
  | nil => simp [quoteMeta]
  | cons x c ih =>
    unfold quoteMeta
    split <;> simp <;> omega

theorem goMatchAux_nil_pat (f : Nat) (d : List Char) :
    goMatchAux (f + 1) [] d = d.isEmpty := rfl

theorem goMatchAux_esc (f : Nat) (x : Char) (p : List Char) (y : Char) (d : List Char) :
    goMatchAux (f + 1) ('\\' :: x :: p) (y :: d) = ((x == y) && goMatchAux f p d) := rfl

theorem goMatchAux_esc_nil (f : Nat) (x : Char) (p : List Char) :
    goMatchAux (f + 1) ('\\' :: x :: p) [] = false := rfl

theorem goMatchAux_lit (f : Nat) (x : Char) (p : List Char) (y : Char) (d : List Char)
    (h1 : x ≠ '*') (h2 : x ≠ '?') (h3 : x ≠ '\\') (h4 : x ≠ '[') :
    goMatchAux (f + 1) (x :: p) (y :: d) = ((x == y) && goMatchAux f p d) := by
  show (if x = '*' then _ else if x = '?' then _ else if x = '\\' then _
    else if x = '[' then _ else _) = _
  rw [if_neg h1, if_neg h2, if_neg h3, if_neg h4]

theorem goMatchAux_lit_nil (f : Nat) (x : Char) (p : List Char)
    (h1 : x ≠ '*') (h2 : x ≠ '?') (h3 : x ≠ '\\') (h4 : x ≠ '[') :
    goMatchAux (f + 1) (x :: p) [] = false := by
  show (if x = '*' then _ else if x = '?' then _ else if x = '\\' then _
    else if x = '[' then _ else _) = _
  rw [if_neg h1, if_neg h2, if_neg h3, if_neg h4]

theorem goMatchAux_quoteMeta : ∀ (c : List Char) (f : Nat) (d : List Char),
    c.length + 1 ≤ f → goMatchAux f (quoteMeta c) d = decide (d = c) := by
  intro c
  induction c with
  | nil =>
    intro f d hf
    obtain ⟨f1, rfl⟩ : ∃ f1, f = f1 + 1 := ⟨f - 1, by omega⟩
    cases d <;> simp [goMatchAux_nil_pat, quoteMeta]
  | cons x c ih =>
    intro f d hf
    obtain ⟨f1, rfl⟩ : ∃ f1, f = f1 + 1 := ⟨f - 1, by omega⟩
    have hf1 : c.length + 1 ≤ f1 := by
      simp only [List.length_cons] at hf
      omega
    cases hx : isSpecialRe x with
    | true =>
      rw [quoteMeta_cons_special c hx]
      cases d with
      | nil => simp [goMatchAux_esc_nil]
      | cons y d1 =>
        rw [goMatchAux_esc, ih f1 d1 hf1]
        rcases eq_or_ne x y with rfl | hxy
        · simp
        · simp [hxy, Ne.symm hxy]
    | false =>
      obtain ⟨hs1, hs2, hs3, hs4⟩ := not_special_facts hx
      rw [quoteMeta_cons_plain c hx]
      cases d with
      | nil => simp [goMatchAux_lit_nil f1 x (quoteMeta c) hs1 hs2 hs3 hs4]
      | cons y d1 =>
        rw [goMatchAux_lit f1 x (quoteMeta c) y d1 hs1 hs2 hs3 hs4, ih f1 d1 hf1]
        rcases eq_or_ne x y with rfl | hxy
        · simp
        · simp [hxy, Ne.symm hxy]

theorem patOkAux_esc (f : Nat) (x : Char) (p : List Char) :
    patOkAux (f + 1) ('\\' :: x :: p) = patOkAux f p := rfl

theorem patOkAux_lit (f : Nat) (x : Char) (p : List Char)
    (h3 : x ≠ '\\') (h4 : x ≠ '[') :
    patOkAux (f + 1) (x :: p) = patOkAux f p := by
  show (if x = '\\' then _ else if x = '[' then _ else _) = _
  rw [if_neg h3, if_neg h4]

theorem patOkAux_quoteMeta : ∀ (c : List Char) (f : Nat),
    c.length + 1 ≤ f → patOkAux f (quoteMeta c) = true := by
  intro c
  induction c with
  | nil =>
    intro f hf
    obtain ⟨f1, rfl⟩ : ∃ f1, f = f1 + 1 := ⟨f - 1, by omega⟩
    simp [quoteMeta, patOkAux]
  | cons x c ih =>
    intro f hf
    obtain ⟨f1, rfl⟩ : ∃ f1, f = f1 + 1 := ⟨f - 1, by omega⟩
    have hf1 : c.length + 1 ≤ f1 := by
      simp only [List.length_cons] at hf
      omega
    cases hx : isSpecialRe x with
    | true =>
      rw [quoteMeta_cons_special c hx, patOkAux_esc]
      exact ih f1 hf1
    | false =>
      obtain ⟨hs1, hs2, hs3, hs4⟩ := not_special_facts hx
      rw [quoteMeta_cons_plain c hx, patOkAux_lit f1 x (quoteMeta c) hs3 hs4]
      exact ih f1 hf1

theorem patOk_quoteMeta (c : List Char) : patOk (quoteMeta c) = true := by
  unfold patOk
  exact patOkAux_quoteMeta c _ (by have := quoteMeta_length c; omega)

theorem goMatch_quoteMeta (c d : List Char) : goMatch (quoteMeta c) d = decide (d = c) := by
  unfold goMatch
  exact goMatchAux_quoteMeta c _ d (by have := quoteMeta_length c; omega)

theorem splitPath_ne_nil (s : List Char) : splitPath s ≠ [] := by
  cases s with
  | nil => simp [splitPath]
  | cons c rest =>
    unfold splitPath
    split
    · simp
    · split <;> simp

theorem splitPath_cons_sep (rest : List Char) : splitPath ('/' :: rest) = [] :: splitPath rest := by
  simp [splitPath]

theorem splitPath_cons_plain {c : Char} (rest : List Char) (hc : c ≠ '/')
    {comp : List Char} {comps : List (List Char)} (hr : splitPath rest = comp :: comps) :
    splitPath (c :: rest) = (c :: comp) :: comps := by
  unfold splitPath
  rw [if_neg hc, hr]

theorem splitPath_append (a b : List Char) :
    splitPath (a ++ '/' :: b) = splitPath a ++ splitPath b := by
  induction a with
  | nil => simp [splitPath, splitPath_cons_sep]
  | cons c a ih =>
    by_cases hc : c = '/'
    · subst hc
      rw [List.cons_append, splitPath_cons_sep, splitPath_cons_sep, ih, List.cons_append]
    · obtain ⟨comp, comps, hsa⟩ : ∃ comp comps, splitPath a = comp :: comps := by
        cases hsa : splitPath a with
        | nil => exact absurd hsa (splitPath_ne_nil a)
        | cons h t => exact ⟨h, t, rfl⟩
      have hsab : splitPath (a ++ '/' :: b) = comp :: (comps ++ splitPath b) := by
        rw [ih, hsa, List.cons_append]
      rw [List.cons_append, splitPath_cons_plain (a ++ '/' :: b) hc hsab,
        splitPath_cons_plain a hc hsa, List.cons_append]

theorem splitPath_quoteMeta (s : List Char) :
    splitPath (quoteMeta s) = (splitPath s).map quoteMeta := by
  induction s with
  | nil => simp [splitPath, quoteMeta]
  | cons c s ih =>
    obtain ⟨comp, comps, hss⟩ : ∃ comp comps, splitPath s = comp :: comps := by
      cases hss : splitPath s with
      | nil => exact absurd hss (splitPath_ne_nil s)
      | cons h t => exact ⟨h, t, rfl⟩
    have hqs : splitPath (quoteMeta s) = quoteMeta comp :: comps.map quoteMeta := by
      rw [ih, hss, List.map_cons]
    cases hx : isSpecialRe c with
    | true =>
      have hc : c ≠ '/' := by
        rintro rfl
        simp [isSpecialRe] at hx
      have hb : ('\\' : Char) ≠ '/' := by decide
      rw [quoteMeta_cons_special s hx,
        splitPath_cons_plain (c :: quoteMeta s) hb
          (splitPath_cons_plain (quoteMeta s) hc hqs),
        splitPath_cons_plain s hc hss, List.map_cons, quoteMeta_cons_special comp hx]
    | false =>
      by_cases hc : c = '/'
      · subst hc
        rw [quoteMeta_cons_plain s hx, splitPath_cons_sep, ih, splitPath_cons_sep,
          List.map_cons]
        rfl
      · rw [quoteMeta_cons_plain s hx, splitPath_cons_plain (quoteMeta s) hc hqs,
          splitPath_cons_plain s hc hss, List.map_cons, quoteMeta_cons_plain comp hx]

theorem matchComps_append (a b : List Name) (p : FPath) :
    matchComps (a ++ b) p =
      (matchComps a (p.take a.length) && matchComps b (p.drop a.length)) := by
  induction a generalizing p with
  | nil => simp [matchComps]
  | cons x a ih =>
    cases p with
    | nil => simp [matchComps]
    | cons q p1 => simp [matchComps, ih p1, Bool.and_assoc]

theorem matchComps_quoteMeta (qs : List Name) (p : FPath) :
    matchComps (qs.map quoteMeta) p = decide (p = qs) := by
  induction qs generalizing p with
  | nil => cases p <;> simp [matchComps]
  | cons x qs ih =>
    cases p with
    | nil => simp [matchComps]
    | cons q p1 => simp [matchComps, goMatch_quoteMeta, ih]

/-! ## C6 -/

/-- C6: glob metacharacters literally present in a configured root path are
escaped by `regexp.QuoteMeta` and act as literal characters, never as
wildcards: whenever enumeration of `quoteMeta root ++ "/" ++ suffix` succeeds,
a path is returned exactly when it exists, its leading components are
literally the components of `root` (for example a directory literally named
a[b]), and only its remaining components are matched against the wildcard
suffix pattern. -/
theorem c6_root_path_literal (root suffix : List Char) (fs : List Entry) (l : List FPath)
    (h : globModel (quoteMeta root ++ '/' :: suffix) fs = Except.ok l) :
    ∀ p, p ∈ l ↔
      (p ∈ fs.map Entry.path ∧
       p.take (splitPath root).length = splitPath root ∧
       matchComps (splitPath suffix) (p.drop (splitPath root).length) = true) := by
  intro p
  simp only [globModel] at h
  rw [splitPath_append, splitPath_quoteMeta] at h
  by_cases hall : ((splitPath root).map quoteMeta ++ splitPath suffix).all patOk = true
  · rw [if_pos hall] at h
    injection h with h2
    subst h2
    rw [List.mem_filter]
    have hm : matchComps ((splitPath root).map quoteMeta ++ splitPath suffix) p =
        (decide (p.take (splitPath root).length = splitPath root) &&
          matchComps (splitPath suffix) (p.drop (splitPath root).length)) := by
      rw [matchComps_append]
      simp only [List.length_map]
      rw [matchComps_quoteMeta]
    rw [hm]
    simp [and_assoc]
  · rw [if_neg hall] at h
    exact absurd h (by simp)

def fsBracket : List Entry :=
  [⟨[[], "data".toList, "a[b]".toList, "f.json".toList], false⟩,
   ⟨[[], "data".toList, "ab".toList, "f.json".toList], false⟩]

theorem c6_witness :
    ([[], "data".toList, "a[b]".toList, "f.json".toList] : FPath) ∈
      ([[[], "data".toList, "a[b]".toList, "f.json".toList]] : List FPath) ∧
    ([[], "data".toList, "ab".toList, "f.json".toList] : FPath) ∉
      ([[[], "data".toList, "a[b]".toList, "f.json".toList]] : List FPath) := by
  have hglob : globModel (quoteMeta "/data/a[b]".toList ++ '/' :: "*.json".toList) fsBracket =
      Except.ok [[[], "data".toList, "a[b]".toList, "f.json".toList]] := by rfl
  have h := c6_root_path_literal "/data/a[b]".toList "*.json".toList fsBracket _ hglob
  constructor
  · exact (h _).mpr ⟨by decide, by decide, by decide⟩
  · intro hm
    have h2 := (h _).mp hm
    exact absurd h2.2.1 (by decide)

/-! ## C2 -/

def confSidecar : Conf :=
  { initOk := true, cachePath := "/cache".toList, sidecarPath := "/data/sidecar".toList,
    albumsPath := "/albums".toList, adminPassword := [] }

def fsScenario : List Entry :=
  [⟨[[], "data".toList], true⟩,
   ⟨[[], "data".toList, "sidecar".toList], true⟩,
   ⟨[[], "data".toList, "sidecar".toList, "x".toList], true⟩,
   ⟨[[], "data".toList, "sidecar".toList, "x".toList, "y".toList], true⟩,
   ⟨[[], "data".toList, "sidecar".toList, "x".toList, "y".toList, "a.json".toList], false⟩,
   ⟨[[], "data".toList, "sidecar".toList, "b.json".toList], false⟩,
   ⟨[[], "data".toList, "sidecar".toList, "c.txt".toList], false⟩]

def fsDepthTwo : List Entry :=
  [⟨[[], "data".toList, "sidecar".toList, "z".toList, "d.json".toList], false⟩]

/-- C2 is false on the code: Go `filepath.Glob` has no recursive wildcard, so
the pattern `sidecarPath/**/*.json` built by resetSidecarJson matches only
paths exactly two levels below the root (`**` behaves as a single `*`).  On
the claim's own scenario (a sidecar root containing x/y/a.json, b.json and
c.txt) the enumeration returns the empty set instead of the claimed
set containing x/y/a.json and b.json, while a file one directory deep such as
z/d.json is matched. -/
theorem c2_enumeration_not_recursive :
    (⟨[[], "data".toList, "sidecar".toList, "b.json".toList], false⟩ : Entry) ∈ fsScenario ∧
    (⟨[[], "data".toList, "sidecar".toList, "x".toList, "y".toList, "a.json".toList],
        false⟩ : Entry) ∈ fsScenario ∧
    globModel (sidecarJsonPattern confSidecar) fsScenario = Except.ok [] ∧
    globModel (sidecarJsonPattern confSidecar) fsDepthTwo =
      Except.ok [[[], "data".toList, "sidecar".toList, "z".toList, "d.json".toList]] := by
  exact ⟨by decide, by decide, rfl, rfl⟩

end PhotoPrismReset
